import Mathlib

/-!
Shallow embedding of `src/covid_19_plot.py`, the data aggregation and
alignment pipeline of the covid-19-plot repository.

Conventions of the embedding:
* Python lists become Lean `List`; Python dicts, which preserve insertion
  order, become association lists `List (String × _)` with unique keys,
  read with `dict_get` and updated in place with `dict_set`.
* Calendar dates are represented by an abstract day ordinal `Nat`; the
  source only compares dates, collects them on the x axis and formats them
  for display, so only their order matters.
* Python numbers on the y axis become `ℚ`: they are ints in the source, or
  floats after the per-capita division; the embedding uses exact rationals.
* Python exceptions become `Except String` carrying the message; the
  `bisect_left` while loop is run on a fuel argument that is an upper
  bound for the number of iterations, so that the function stays a plain
  structural recursion.
* CSV reading is modelled by handing each function the already parsed
  rows of the file; `str.strip` is modelled by `py_strip` on the
  character list of the string.
-/

namespace CovidPlot

/-- Python `str.strip()`: drop whitespace from both ends of the string. -/
def py_strip (s : String) : String :=
  String.mk (((s.data.dropWhile Char.isWhitespace).reverse.dropWhile Char.isWhitespace).reverse)

/-- Lookup in a Python dict modelled as an insertion-ordered association list. -/
def dict_get {V : Type} : String → List (String × V) → Option V
  | _, [] => none
  | k, p :: rest => if p.1 = k then some p.2 else dict_get k rest

/-- Assignment `d[k] = v` on a Python dict: replace the value at an existing
key in place, otherwise append the new key at the end. -/
def dict_set {V : Type} : List (String × V) → String → V → List (String × V)
  | [], k, v => [(k, v)]
  | p :: rest, k, v => if p.1 = k then (k, v) :: rest else p :: dict_set rest k v

/-- Clamped index used by Python slice notation: a negative index counts
from the end of the list, and both directions clamp into `[0, n]`. -/
def py_slice_index (n : Nat) (i : Int) : Nat :=
  if i < 0 then (max 0 ((n : Int) + i)).toNat else min i.toNat n

/-- Python slice `l[i:]`. -/
def py_slice_from {α : Type} (l : List α) (i : Int) : List α :=
  l.drop (py_slice_index l.length i)

/-- Python slice `l[:i]`. -/
def py_slice_to {α : Type} (l : List α) (i : Int) : List α :=
  l.take (py_slice_index l.length i)

/-- The while loop of `bisect.bisect_left` from the Python standard library,
run on a fuel argument bounding the number of iterations. -/
def bisect_left_loop (a : List ℚ) (x : ℚ) : Nat → Nat → Nat → Nat
  | 0, lo, _ => lo
  | fuel + 1, lo, hi =>
    if lo < hi then
      if a.getD ((lo + hi) / 2) 0 < x then bisect_left_loop a x fuel ((lo + hi) / 2 + 1) hi
      else bisect_left_loop a x fuel lo ((lo + hi) / 2)
    else lo

/-- `bisect.bisect_left(a, x)`: the loop starts with `lo = 0`, `hi = len(a)`,
and every iteration shrinks `hi - lo`, so `len(a)` steps of fuel suffice. -/
def bisect_left (a : List ℚ) (x : ℚ) : Nat :=
  bisect_left_loop a x a.length 0 a.length

/-- The threshold constant `COMPARE_CONSTANT = 100` of the source. -/
def COMPARE_CONSTANT : ℚ := 100

/-- Specification-side definition of the leftmost insertion point: the index
of the first element that is `≥ x`, or the length if there is none.  For a
non-decreasing list this is what the claims call the crossing position. -/
def leftmost_ge (x : ℚ) : List ℚ → Nat
  | [] => 0
  | v :: rest => if x ≤ v then 0 else leftmost_ge x rest + 1

/-- Python `max` on a list: `none` models the `ValueError` on an empty list. -/
def list_max : List ℚ → Option ℚ
  | [] => none
  | v :: rest => some (rest.foldl max v)

/-- The first loop of `get_shifts`: walk the areas in iteration order and
keep the name and `bisect_left` index of the first area attaining the
smallest index (the update condition is a strict `<`). -/
def first_at_100_aux : (String × Option Nat) → List (String × List ℚ) → String × Option Nat
  | acc, [] => acc
  | acc, p :: rest =>
    match acc.2 with
    | none => first_at_100_aux (p.1, some (bisect_left p.2 COMPARE_CONSTANT)) rest
    | some idx =>
      if bisect_left p.2 COMPARE_CONSTANT < idx then
        first_at_100_aux (p.1, some (bisect_left p.2 COMPARE_CONSTANT)) rest
      else first_at_100_aux acc rest

/-- The `first_at_100` accumulator of `get_shifts`, starting from
`{"name": "", "index": None}`. -/
def first_at_100 (data : List (String × List ℚ)) : String × Option Nat :=
  first_at_100_aux ("", none) data

/-- The body of the second loop of `get_shifts` for one area.  `none` models
the `ValueError` that Python `max` raises on an empty series. -/
def shift_for (first : String × Option Nat) (p : String × List ℚ) : Option (String × Int) :=
  if p.1 = first.1 then some (p.1, 0)
  else
    match list_max p.2 with
    | none => none
    | some m =>
      if m < COMPARE_CONSTANT then some (p.1, 0)
      else some (p.1, (bisect_left p.2 COMPARE_CONSTANT : Int) - (first.2.getD 0 : Int))

/-- `get_shifts` of the source.  The argument is the mapping from area to the
y values of its confirmed series, i.e. `data[area]["confirmed"]["y"]` for each
area of the nested `data` structure, in dict iteration order. -/
def get_shifts (data : List (String × List ℚ)) : Option (List (String × Int)) :=
  data.mapM (shift_for (first_at_100 data))

/-- The per-series offset application of `prepare_data` (the body of its
inner loop in compare mode): `x_axis = range(len(x))`, then slice `x` and `y`
according to the sign of the shift `s`. -/
def apply_shift {α β : Type} (s : Int) (x : List α) (y : List β) : List Nat × List β :=
  if 0 < s then
    (py_slice_to (List.range x.length) ((x.length : Int) - s), py_slice_from y s)
  else if s < 0 then
    (py_slice_from (List.range x.length) s, py_slice_to y ((x.length : Int) - s))
  else
    (List.range x.length, y)

/-- A per-area, per-metric series: the x list of day ordinals and the y list
of counts. -/
abbrev Series := List Nat × List ℚ

/-- The compare branch of `prepare_data`: apply the computed shift of each
area to every one of its metric series. -/
def prepare_compare (data : List (String × List (String × Series)))
    (shifts : List (String × Int)) : List (String × List (String × (List Nat × List ℚ))) :=
  data.map (fun a =>
    (a.1, a.2.map (fun c => (c.1, apply_shift ((dict_get a.1 shifts).getD 0) c.2.1 c.2.2))))

/-- The command line options of `parse_arguments` that reach the pipeline. -/
structure Args where
  countries : List String
  logarithmic : Bool
  confirmed : Bool
  deaths : Bool
  recovered : Bool
  all : Bool
  startdate : Option Nat
  compare : Bool
  split_by_state : Bool
  relative : Bool
  list_countries : Bool
deriving DecidableEq

/-- The metric-defaulting block of `parse_arguments`: `--all` switches all
three metrics on, and if none was chosen, confirmed is the default. -/
def normalize_metrics (a : Args) : Args :=
  if a.all then { a with confirmed := true, deaths := true, recovered := true }
  else if a.confirmed = false ∧ a.deaths = false ∧ a.recovered = false then
    { a with confirmed := true }
  else a

/-- The validation part of `parse_arguments`; an error models `parser.error`,
which prints the message and exits the process with status 2. -/
def parse_arguments (a0 : Args) : Except String Args :=
  let a := normalize_metrics a0
  if a.compare ∧ a.confirmed = false then
    Except.error "Comparison is only supported based on confirmed cases."
  else if a.relative ∧ a.split_by_state then
    Except.error "--split-by-state with --relative is not supported."
  else Except.ok a

/-- One row of a wide time-series CSV: province/state, country/region and
the (date, count) cells, in column order.  `Lat` and `Long` are dropped by
the source and not modelled. -/
structure Row where
  state : String
  country : String
  cells : List (Nat × Int)
deriving DecidableEq

/-- The message of the exception raised when per-capita normalization does
not find the area in the population table. -/
def pop_error_msg (area : String) : String :=
  "\"" ++ area ++ "\" not found in population.csv!"

/-- The start-date filter `args.startdate and date < args.startdate`. -/
def skip_by_startdate : Option Nat → Nat → Bool
  | some sd, d => decide (d < sd)
  | none, _ => false

/-- The y value of one cell: the raw count, divided by population/100000
when `--relative` is given; a missing population entry raises. -/
def cell_value (pop : List (String × Int)) (args : Args) (area : String) (count : Int) :
    Except String ℚ :=
  if args.relative then
    match dict_get area pop with
    | none => Except.error (pop_error_msg area)
    | some p => Except.ok ((count : ℚ) / ((p : ℚ) / 100000))
  else Except.ok (count : ℚ)

/-- One iteration of the cell loop of `get_data_from_file`: skip dates
before the start date, otherwise append the date to x and the (possibly
normalized) count to y. -/
def process_cell (pop : List (String × Int)) (args : Args) (area : String)
    (xy : List Nat × List ℚ) (cell : Nat × Int) : Except String (List Nat × List ℚ) :=
  if skip_by_startdate args.startdate cell.1 then Except.ok xy
  else
    match cell_value pop args area cell.2 with
    | Except.error e => Except.error e
    | Except.ok yv => Except.ok (xy.1 ++ [cell.1], xy.2 ++ [yv])

/-- The cell loop of `get_data_from_file` building the x and y lists of one
row. -/
def build_xy (pop : List (String × Int)) (args : Args) (area : String)
    (cells : List (Nat × Int)) : Except String (List Nat × List ℚ) :=
  cells.foldlM (process_cell pop args area) ([], [])

/-- The element-wise accumulation `data[area]["y"][ct] += i` over the new y
list; an error models the `IndexError` when the new list is longer than the
stored one.  A longer stored list keeps its tail, as in the source. -/
def sum_into : List ℚ → List ℚ → Except String (List ℚ)
  | old, [] => Except.ok old
  | [], _ :: _ => Except.error "list assignment index out of range"
  | o :: os, n :: ns =>
    match sum_into os ns with
    | Except.error e => Except.error e
    | Except.ok rest => Except.ok ((o + n) :: rest)

/-- The key under which a row is stored: `"country - state"` when splitting
by state and the state is nonempty, the bare country otherwise. -/
def row_label (args : Args) (row : Row) : String :=
  if args.split_by_state ∧ py_strip row.state ≠ "" then
    py_strip row.country ++ " - " ++ py_strip row.state
  else py_strip row.country

/-- Merging the x/y lists of one row into the accumulated per-area data:
a fresh area is appended; with `--split-by-state` an existing key is
overwritten; otherwise the new y values are added element-wise into the
stored series of the area (whose x list is kept). -/
def merge_row (args : Args) (data : List (String × Series)) (area : String)
    (xy : List Nat × List ℚ) : Except String (List (String × Series)) :=
  match dict_get area data with
  | none => Except.ok (data ++ [(area, xy)])
  | some old =>
    if args.split_by_state then Except.ok (dict_set data area xy)
    else
      match sum_into old.2 xy.2 with
      | Except.error e => Except.error e
      | Except.ok newY => Except.ok (dict_set data area (old.1, newY))

/-- The row loop body of `get_data_from_file`: rows whose stripped country
is not requested are discarded; otherwise the x/y lists are built (with the
population lookup keyed by the bare country) and merged under the row label. -/
def process_row (pop : List (String × Int)) (args : Args)
    (data : List (String × Series)) (row : Row) : Except String (List (String × Series)) :=
  if py_strip row.country ∈ args.countries then
    match build_xy pop args (py_strip row.country) row.cells with
    | Except.error e => Except.error e
    | Except.ok xy => merge_row args data (row_label args row) xy
  else Except.ok data

/-- `get_data_from_file` of the source, over the parsed rows of one wide
CSV file. -/
def get_data_from_file (pop : List (String × Int)) (args : Args) (rows : List Row) :
    Except String (List (String × Series)) :=
  rows.foldlM (process_row pop args) []

/-- The nested structure produced by `get_data`: area, then metric name,
then series. -/
abbrev DataMap := List (String × List (String × Series))

/-- `add_to_data` inside `get_data`: store the series of one metric under
each area, creating a fresh bundle for unseen areas. -/
def add_to_data (data : DataMap) (sdata : List (String × Series)) (key : String) : DataMap :=
  sdata.foldl (fun d p =>
    match dict_get p.1 d with
    | none => d ++ [(p.1, [(key, p.2)])]
    | some bundle => dict_set d p.1 (dict_set bundle key p.2)) data

/-- Events observable at the process boundary, used to state in which order
the program touches files, prints and exits.  The whole rendering phase
(`prepare_data`, `plot`, `plt.show`) is abstracted into a single `render`
event; it is reached only on the success path. -/
inductive Event : Type where
  | readPopulation : Event
  | readFile : String → Event
  | readDailyReports : Event
  | listOut : Event
  | printErr : String → Event
  | crash : String → Event
  | exitCode : Nat → Event
  | render : Event
deriving DecidableEq

/-- One metric block of `get_data`: read the CSV of the metric and merge it;
a previous uncaught exception short-circuits. -/
def metric_step (env : String → List Row) (pop : List (String × Int)) (args : Args)
    (key : String) (acc : List Event × Except String DataMap) :
    List Event × Except String DataMap :=
  match acc.2 with
  | Except.error _ => acc
  | Except.ok d =>
    match get_data_from_file pop args (env key) with
    | Except.error e => (acc.1 ++ [Event.readFile key], Except.error e)
    | Except.ok sub => (acc.1 ++ [Event.readFile key], Except.ok (add_to_data d sub key))

/-- `get_data` of the source, together with the file reads it performs.
`env` maps the metric name to the parsed rows of its CSV file. -/
def get_data_traced (env : String → List Row) (pop : List (String × Int)) (args : Args) :
    List Event × Except String DataMap :=
  let s0 : List Event × Except String DataMap := ([], Except.ok [])
  let s1 := if args.confirmed then metric_step env pop args "confirmed" s0 else s0
  let s2 := if args.deaths then metric_step env pop args "deaths" s1 else s1
  if args.recovered then metric_step env pop args "recovered" s2 else s2

/-- The observable behaviour of one program run.  Importing the module reads
`population.csv` first (lines 27 to 30 of the source), before any argument
validation; `parser.error` prints the message and exits with status 2; an
uncaught exception is a crash ending the process with status 1; an empty
data result prints the no-data message to stderr and exits with status 1. -/
def covid_main (env : String → List Row) (pop : List (String × Int)) (raw : Args) :
    List Event :=
  Event.readPopulation ::
    (match parse_arguments raw with
     | Except.error msg => [Event.printErr msg, Event.exitCode 2]
     | Except.ok args =>
       if args.list_countries then [Event.readDailyReports, Event.listOut, Event.exitCode 0]
       else
         match get_data_traced env pop args with
         | (evs, Except.error msg) => evs ++ [Event.crash msg, Event.exitCode 1]
         | (evs, Except.ok data) =>
           if data.isEmpty then
             evs ++ [Event.printErr
                 ("No data found for countries: " ++ String.intercalate ", " args.countries),
               Event.exitCode 1]
           else evs ++ [Event.render])

/-- Whether an event reads a file. -/
def is_file_read : Event → Bool
  | Event.readPopulation => true
  | Event.readFile _ => true
  | Event.readDailyReports => true
  | _ => false

/-- Whether an event surfaces an error to the user. -/
def is_error_event : Event → Bool
  | Event.printErr _ => true
  | Event.crash _ => true
  | _ => false

/-- The property asserted by the spec for configuration errors: no file is
read before the first surfaced error of the run. -/
def no_file_io_before_error (tr : List Event) : Bool :=
  (tr.takeWhile (fun e => !is_error_event e)).all (fun e => !is_file_read e)

/-- Modelled from the spec: the builder of per-area series from successive
daily snapshot files is not part of `src/covid_19_plot.py` (there,
`get_countries` only scans the daily report files for region names); it
belongs to the historical snapshot-based variant of the repository.
Following section 4.2 of the spec, the value of one area on one day is the
value recorded in the snapshot of that day, or the previous value carried
forward when the area is absent, starting from zero. -/
def forward_fill (a : String) : List (List (String × Int)) → Int → List Int
  | [], _ => []
  | snap :: rest, prev =>
    ((dict_get a snap).getD prev) :: forward_fill a rest ((dict_get a snap).getD prev)

/-- Modelled from the spec: snapshots are processed in ascending order and
dates before the first snapshot mentioning any requested area are skipped;
from then on every date contributes one value per area. -/
def active_snapshots (areas : List String) (snapshots : List (List (String × Int))) :
    List (List (String × Int)) :=
  snapshots.dropWhile (fun snap => areas.all (fun a => (dict_get a snap).isNone))

/-- Modelled from the spec: the per-area series built from the daily
snapshot files, one forward-filled value per processed date. -/
def build_snapshot_data (areas : List String) (snapshots : List (List (String × Int))) :
    List (String × List Int) :=
  areas.map (fun a => (a, forward_fill a (active_snapshots areas snapshots) 0))

end CovidPlot

namespace CovidPlot

/-! ### Properties of `list_max` -/

theorem foldl_max_init_le (l : List ℚ) : ∀ a : ℚ, a ≤ l.foldl max a := by
  induction l with
  | nil => intro a; exact le_refl a
  | cons v rest ih => intro a; exact le_trans (le_max_left a v) (ih (max a v))

theorem foldl_max_le_of_mem (l : List ℚ) : ∀ (a v : ℚ), v ∈ l → v ≤ l.foldl max a := by
  induction l with
  | nil => intro a v hv; cases hv
  | cons u rest ih =>
    intro a v hv
    rcases List.mem_cons.mp hv with h | h
    · subst h; exact le_trans (le_max_right a v) (foldl_max_init_le rest (max a v))
    · exact ih (max a u) v h

theorem foldl_max_mem (l : List ℚ) : ∀ a : ℚ, l.foldl max a = a ∨ l.foldl max a ∈ l := by
  induction l with
  | nil => intro a; exact Or.inl rfl
  | cons u rest ih =>
    intro a
    rcases ih (max a u) with h | h
    · rcases max_choice a u with hm | hm
      · exact Or.inl (by rw [List.foldl_cons, h, hm])
      · exact Or.inr (by rw [List.foldl_cons, h, hm]; exact List.mem_cons_self u rest)
    · exact Or.inr (List.mem_cons_of_mem u h)

theorem list_max_spec (l : List ℚ) (hne : l ≠ []) :
    ∃ m, list_max l = some m ∧ m ∈ l ∧ ∀ v ∈ l, v ≤ m := by
  cases l with
  | nil => exact absurd rfl hne
  | cons v rest =>
    refine ⟨rest.foldl max v, rfl, ?_, ?_⟩
    · rcases foldl_max_mem rest v with h | h
      · rw [h]; exact List.mem_cons_self v rest
      · exact List.mem_cons_of_mem v h
    · intro w hw
      rcases List.mem_cons.mp hw with h | h
      · subst h; exact foldl_max_init_le rest w
      · exact foldl_max_le_of_mem rest v w h

/-! ### Correctness of the `bisect_left` binary search -/

theorem bisect_left_loop_spec (a : List ℚ) (x : ℚ)
    (hmono : ∀ i j, i ≤ j → j < a.length → a.getD i 0 ≤ a.getD j 0) :
    ∀ (fuel lo hi : Nat), hi - lo ≤ fuel → lo ≤ hi → hi ≤ a.length →
      (∀ i, i < lo → a.getD i 0 < x) →
      (∀ i, hi ≤ i → i < a.length → x ≤ a.getD i 0) →
      (∀ i, i < bisect_left_loop a x fuel lo hi → a.getD i 0 < x) ∧
      (∀ i, bisect_left_loop a x fuel lo hi ≤ i → i < a.length → x ≤ a.getD i 0) ∧
      bisect_left_loop a x fuel lo hi ≤ a.length := by
  intro fuel
  induction fuel with
  | zero =>
    intro lo hi hfuel hlohi hhi hlo hge
    have heq : lo = hi := by omega
    subst heq
    exact ⟨hlo, fun i h1 h2 => hge i h1 h2, le_trans hlohi hhi⟩
  | succ fuel ih =>
    intro lo hi hfuel hlohi hhi hlo hge
    by_cases hlt : lo < hi
    · have hmidlo : lo ≤ (lo + hi) / 2 := by omega
      have hmidhi : (lo + hi) / 2 < hi := by omega
      have hmidlen : (lo + hi) / 2 < a.length := lt_of_lt_of_le hmidhi hhi
      by_cases hv : a.getD ((lo + hi) / 2) 0 < x
      · have hres : bisect_left_loop a x (fuel + 1) lo hi =
            bisect_left_loop a x fuel ((lo + hi) / 2 + 1) hi := by
          simp only [bisect_left_loop, if_pos hlt, if_pos hv]
        rw [hres]
        refine ih ((lo + hi) / 2 + 1) hi (by omega) (by omega) hhi ?_ hge
        intro i hi2
        exact lt_of_le_of_lt (hmono i ((lo + hi) / 2) (by omega) hmidlen) hv
      · have hres : bisect_left_loop a x (fuel + 1) lo hi =
            bisect_left_loop a x fuel lo ((lo + hi) / 2) := by
          simp only [bisect_left_loop, if_pos hlt, if_neg hv]
        rw [hres]
        refine ih lo ((lo + hi) / 2) (by omega) (by omega) (le_of_lt hmidlen) hlo ?_
        intro i hi1 hi2
        exact le_trans (le_of_not_lt hv) (hmono ((lo + hi) / 2) i hi1 hi2)
    · have hres : bisect_left_loop a x (fuel + 1) lo hi = lo := by
        simp only [bisect_left_loop, if_neg hlt]
      have heq : lo = hi := by omega
      rw [hres]
      subst heq
      exact ⟨hlo, fun i h1 h2 => hge i h1 h2, hhi⟩

theorem bisect_left_spec (a : List ℚ) (x : ℚ)
    (hmono : ∀ i j, i ≤ j → j < a.length → a.getD i 0 ≤ a.getD j 0) :
    (∀ i, i < bisect_left a x → a.getD i 0 < x) ∧
    (∀ i, bisect_left a x ≤ i → i < a.length → x ≤ a.getD i 0) ∧
    bisect_left a x ≤ a.length := by
  refine bisect_left_loop_spec a x hmono a.length 0 a.length (by omega) (by omega)
    (le_refl _) (fun i h => absurd h (Nat.not_lt_zero i)) (fun i h1 h2 => absurd h2 (not_lt_of_le h1))

/-! ### The specification-side leftmost insertion point -/

theorem leftmost_ge_le_length (x : ℚ) (l : List ℚ) : leftmost_ge x l ≤ l.length := by
  induction l with
  | nil => exact le_refl 0
  | cons v rest ih =>
    by_cases h : x ≤ v
    · simp only [leftmost_ge, if_pos h]; omega
    · simp only [leftmost_ge, if_neg h, List.length_cons]; omega

theorem leftmost_ge_before (x : ℚ) (l : List ℚ) :
    ∀ i, i < leftmost_ge x l → l.getD i 0 < x := by
  induction l with
  | nil => intro i h; simp [leftmost_ge] at h
  | cons v rest ih =>
    intro i h
    by_cases hx : x ≤ v
    · simp only [leftmost_ge, if_pos hx] at h; omega
    · simp only [leftmost_ge, if_neg hx] at h
      cases i with
      | zero => simpa using lt_of_not_le hx
      | succ j =>
        simp only [List.getD_cons_succ]
        exact ih j (by omega)

theorem leftmost_ge_at (x : ℚ) (l : List ℚ) (h : leftmost_ge x l < l.length) :
    x ≤ l.getD (leftmost_ge x l) 0 := by
  induction l with
  | nil => simp at h
  | cons v rest ih =>
    by_cases hx : x ≤ v
    · simpa only [leftmost_ge, if_pos hx] using hx
    · simp only [leftmost_ge, if_neg hx] at h ⊢
      simp only [List.getD_cons_succ]
      exact ih (by simpa using Nat.lt_of_succ_lt_succ h)

theorem insertion_point_unique (l : List ℚ) (x : ℚ) (r s : Nat)
    (hr1 : ∀ i, i < r → l.getD i 0 < x) (hr2 : r ≤ l.length)
    (hr3 : r < l.length → x ≤ l.getD r 0)
    (hs1 : ∀ i, i < s → l.getD i 0 < x) (hs2 : s ≤ l.length)
    (hs3 : s < l.length → x ≤ l.getD s 0) : r = s := by
  rcases Nat.lt_trichotomy r s with h | h | h
  · exact absurd (hr3 (lt_of_lt_of_le h hs2)) (not_le_of_lt (hs1 r h))
  · exact h
  · exact absurd (hs3 (lt_of_lt_of_le h hr2)) (not_le_of_lt (hr1 s h))

theorem bisect_left_eq_leftmost_ge (a : List ℚ) (x : ℚ)
    (hmono : ∀ i j, i ≤ j → j < a.length → a.getD i 0 ≤ a.getD j 0) :
    bisect_left a x = leftmost_ge x a := by
  obtain ⟨h1, h2, h3⟩ := bisect_left_spec a x hmono
  exact insertion_point_unique a x (bisect_left a x) (leftmost_ge x a)
    h1 h3 (fun h => h2 (bisect_left a x) (le_refl _) h)
    (leftmost_ge_before x a) (leftmost_ge_le_length x a)
    (fun h => leftmost_ge_at x a h)

/-- Bridge from a sortedness hypothesis stated with `List.Pairwise` to the
index-wise monotonicity used by the binary search lemmas. -/
theorem pairwise_le_getD (l : List ℚ) (h : l.Pairwise (· ≤ ·)) :
    ∀ i j, i ≤ j → j < l.length → l.getD i 0 ≤ l.getD j 0 := by
  intro i j hij hj
  rcases Nat.eq_or_lt_of_le hij with heq | hlt
  · subst heq; exact le_refl _
  · have hi : i < l.length := lt_trans hlt hj
    rw [List.getD_eq_getElem l 0 hi, List.getD_eq_getElem l 0 hj]
    exact List.pairwise_iff_getElem.mp h i j hi hj hlt

end CovidPlot


namespace CovidPlot

/-! ### Characterization of the `first_at_100` loop -/

theorem first_at_100_aux_spec :
    ∀ (l : List (String × List ℚ)) (name : String) (idx : Nat),
      ∃ m, (first_at_100_aux (name, some idx) l).2 = some m ∧ m ≤ idx ∧
        (∀ p ∈ l, m ≤ bisect_left p.2 COMPARE_CONSTANT) ∧
        (((first_at_100_aux (name, some idx) l).1 = name ∧ m = idx) ∨
          (∃ (k : Nat) (q : String × List ℚ), l[k]? = some q ∧
            (first_at_100_aux (name, some idx) l).1 = q.1 ∧
            m = bisect_left q.2 COMPARE_CONSTANT ∧ m < idx ∧
            (∀ (j : Nat) (r : String × List ℚ), j < k → l[j]? = some r →
              m < bisect_left r.2 COMPARE_CONSTANT))) := by
  intro l
  induction l with
  | nil =>
    intro name idx
    exact ⟨idx, rfl, le_refl idx, fun p hp => absurd hp (List.not_mem_nil p), Or.inl ⟨rfl, rfl⟩⟩
  | cons p rest ih =>
    intro name idx
    by_cases hlt : bisect_left p.2 COMPARE_CONSTANT < idx
    · have hstep : first_at_100_aux (name, some idx) (p :: rest) =
          first_at_100_aux (p.1, some (bisect_left p.2 COMPARE_CONSTANT)) rest := by
        simp only [first_at_100_aux, if_pos hlt]
      obtain ⟨m, hm, hmle, hall, hdisj⟩ := ih p.1 (bisect_left p.2 COMPARE_CONSTANT)
      rw [hstep]
      refine ⟨m, hm, le_of_lt (lt_of_le_of_lt hmle hlt), ?_, ?_⟩
      · intro q hq
        rcases List.mem_cons.mp hq with h | h
        · subst h; exact hmle
        · exact hall q h
      · rcases hdisj with ⟨hname, hmeq⟩ | ⟨k, q, hk, hname, hmeq, hmlt, hstrict⟩
        · refine Or.inr ⟨0, p, by rw [List.getElem?_cons_zero], hname, hmeq, lt_of_le_of_lt hmle hlt, ?_⟩
          intro j r hj
          omega
        · refine Or.inr ⟨k + 1, q, by rw [List.getElem?_cons_succ]; exact hk, hname, hmeq,
            lt_trans hmlt hlt, ?_⟩
          intro j r hj hr
          cases j with
          | zero =>
            have hrp : p = r := by simpa using hr
            rw [← hrp]
            exact hmlt
          | succ j0 =>
            exact hstrict j0 r (by omega) (by simpa using hr)
    · have hstep : first_at_100_aux (name, some idx) (p :: rest) =
          first_at_100_aux (name, some idx) rest := by
        simp only [first_at_100_aux, if_neg hlt]
      obtain ⟨m, hm, hmle, hall, hdisj⟩ := ih name idx
      rw [hstep]
      refine ⟨m, hm, hmle, ?_, ?_⟩
      · intro q hq
        rcases List.mem_cons.mp hq with h | h
        · subst h; exact le_trans hmle (le_of_not_lt hlt)
        · exact hall q h
      · rcases hdisj with ⟨hname, hmeq⟩ | ⟨k, q, hk, hname, hmeq, hmlt, hstrict⟩
        · exact Or.inl ⟨hname, hmeq⟩
        · refine Or.inr ⟨k + 1, q, by rw [List.getElem?_cons_succ]; exact hk, hname, hmeq, hmlt, ?_⟩
          intro j r hj hr
          cases j with
          | zero =>
            have hrp : p = r := by simpa using hr
            rw [← hrp]
            exact lt_of_lt_of_le hmlt (le_of_not_lt hlt)
          | succ j0 =>
            exact hstrict j0 r (by omega) (by simpa using hr)

/-- The reference area chosen by `get_shifts`: the first area in iteration
order whose `bisect_left` index attains the minimum of all indices. -/
theorem first_at_100_spec (data : List (String × List ℚ)) (hne : data ≠ []) :
    ∃ (r : Nat) (p : String × List ℚ), data[r]? = some p ∧
      first_at_100 data = (p.1, some (bisect_left p.2 COMPARE_CONSTANT)) ∧
      (∀ q ∈ data, bisect_left p.2 COMPARE_CONSTANT ≤ bisect_left q.2 COMPARE_CONSTANT) ∧
      (∀ (j : Nat) (q : String × List ℚ), j < r → data[j]? = some q →
        bisect_left p.2 COMPARE_CONSTANT < bisect_left q.2 COMPARE_CONSTANT) := by
  cases data with
  | nil => exact absurd rfl hne
  | cons p0 rest =>
    have hstart : first_at_100 (p0 :: rest) =
        first_at_100_aux (p0.1, some (bisect_left p0.2 COMPARE_CONSTANT)) rest := by
      simp only [first_at_100, first_at_100_aux]
    obtain ⟨m, hm, hmle, hall, hdisj⟩ :=
      first_at_100_aux_spec rest p0.1 (bisect_left p0.2 COMPARE_CONSTANT)
    rcases hdisj with ⟨hname, hmeq⟩ | ⟨k, q, hk, hname, hmeq, hmlt, hstrict⟩
    · refine ⟨0, p0, by rw [List.getElem?_cons_zero], ?_, ?_, ?_⟩
      · rw [hstart]
        refine Prod.ext hname ?_
        rw [hm, hmeq]
      · intro q hq
        rcases List.mem_cons.mp hq with h | h
        · subst h; exact le_refl _
        · rw [← hmeq]; exact hall q h
      · intro j q hj
        omega
    · refine ⟨k + 1, q, by rw [List.getElem?_cons_succ]; exact hk, ?_, ?_, ?_⟩
      · rw [hstart]
        refine Prod.ext hname ?_
        rw [hm, hmeq]
      · intro w hw
        rw [← hmeq]
        rcases List.mem_cons.mp hw with h | h
        · subst h; exact le_of_lt hmlt
        · exact hall w h
      · intro j w hj hw
        rw [← hmeq]
        cases j with
        | zero =>
          have hwp : p0 = w := by simpa using hw
          rw [← hwp]
          exact hmlt
        | succ j0 =>
          exact hstrict j0 w (by omega) (by simpa using hw)

/-! ### `mapM` over `Option` -/

theorem mapM_option_eq_map {α β : Type} (f : α → Option β) (g : α → β) :
    ∀ l : List α, (∀ p ∈ l, f p = some (g p)) → l.mapM f = some (l.map g) := by
  intro l
  induction l with
  | nil => intro _; rfl
  | cons p rest ih =>
    intro h
    rw [List.mapM_cons, h p (List.mem_cons_self p rest),
      ih (fun q hq => h q (List.mem_cons_of_mem p hq))]
    rfl

theorem mapM_option_mem_source {α β : Type} (f : α → Option β) :
    ∀ (l : List α) (res : List β), l.mapM f = some res → ∀ q ∈ res, ∃ p ∈ l, f p = some q := by
  intro l
  induction l with
  | nil =>
    intro res h q hq
    rw [List.mapM_nil] at h
    have : ([] : List β) = res := by simpa using h
    subst this
    cases hq
  | cons p rest ih =>
    intro res h q hq
    rw [List.mapM_cons] at h
    cases hf : f p with
    | none => rw [hf] at h; simp at h
    | some b =>
      rw [hf] at h
      cases hrest : rest.mapM f with
      | none => rw [hrest] at h; simp at h
      | some bs =>
        rw [hrest] at h
        simp only [Option.bind_eq_bind, Option.some_bind, Option.pure_def, Option.some.injEq] at h
        subst h
        rcases List.mem_cons.mp hq with hqb | hqbs
        · exact ⟨p, List.mem_cons_self p rest, by rw [hf, hqb]⟩
        · obtain ⟨w, hw1, hw2⟩ := ih bs hrest q hqbs
          exact ⟨w, List.mem_cons_of_mem p hw1, hw2⟩

end CovidPlot

namespace CovidPlot

/-! ### The second loop of `get_shifts` in closed form -/

/-- Proof-side closed form of the shift assigned to one area (the three
branches of the second loop of `get_shifts`). -/
def shift_value (first : String × Option Nat) (p : String × List ℚ) : Int :=
  if p.1 = first.1 then 0
  else if (list_max p.2).getD 0 < COMPARE_CONSTANT then 0
  else (bisect_left p.2 COMPARE_CONSTANT : Int) - (first.2.getD 0 : Int)

theorem mem_of_getElem_some {α : Type} {l : List α} {n : Nat} {a : α}
    (h : l[n]? = some a) : a ∈ l := by
  obtain ⟨hn, he⟩ := List.getElem?_eq_some.mp h
  exact he ▸ List.getElem_mem hn

theorem shift_for_eq (first : String × Option Nat) (p : String × List ℚ) (hne : p.2 ≠ []) :
    shift_for first p = some (p.1, shift_value first p) := by
  obtain ⟨m, hm, _, _⟩ := list_max_spec p.2 hne
  by_cases h1 : p.1 = first.1
  · simp only [shift_for, shift_value, if_pos h1]
  · simp only [shift_for, shift_value, if_neg h1, hm, Option.getD_some]
    by_cases h2 : m < COMPARE_CONSTANT
    · simp only [if_pos h2]
    · simp only [if_neg h2]

theorem get_shifts_eq_map (data : List (String × List ℚ)) (hne : ∀ p ∈ data, p.2 ≠ []) :
    get_shifts data =
      some (data.map (fun p => (p.1, shift_value (first_at_100 data) p))) :=
  mapM_option_eq_map _ _ data (fun p hp => shift_for_eq _ p (hne p hp))

theorem nodup_fst_ne (data : List (String × List ℚ))
    (hnd : (data.map Prod.fst).Nodup) (j r : Nat) (q p : String × List ℚ)
    (hj : data[j]? = some q) (hr : data[r]? = some p) (hjr : j ≠ r) : q.1 ≠ p.1 := by
  obtain ⟨hjlen, hjget⟩ := List.getElem?_eq_some.mp hj
  obtain ⟨hrlen, hrget⟩ := List.getElem?_eq_some.mp hr
  intro heq
  have hjm : j < (data.map Prod.fst).length := by simpa using hjlen
  have hrm : r < (data.map Prod.fst).length := by simpa using hrlen
  have : (data.map Prod.fst)[j] = (data.map Prod.fst)[r] := by
    rw [List.getElem_map, List.getElem_map, hjget, hrget]
    exact heq
  exact hjr (hnd.getElem_inj_iff.mp this)

end CovidPlot

namespace CovidPlot

/-- Claim C1: in a compare run over areas with ascending confirmed series of
which at least one reaches the threshold, `get_shifts` computes each crossing
position as the leftmost insertion point of 100 into the confirmed series;
the area with the smallest crossing position (ties broken in favor of the
first area in iteration order) is the reference with offset 0, and every
other area that reaches the threshold is assigned its own crossing position
minus the reference crossing position. -/
theorem claim_C1 (data : List (String × List ℚ))
    (hnodup : (data.map Prod.fst).Nodup)
    (hsorted : ∀ p ∈ data, p.2.Pairwise (· ≤ ·))
    (hnonempty : ∀ p ∈ data, p.2 ≠ [])
    (hreach : ∃ p ∈ data, ∃ v ∈ p.2, COMPARE_CONSTANT ≤ v) :
    ∃ shifts, get_shifts data = some shifts ∧ shifts.length = data.length ∧
      ∃ (r : Nat) (p : String × List ℚ), data[r]? = some p ∧
        (∀ (j : Nat) (q : String × List ℚ), data[j]? = some q →
          leftmost_ge COMPARE_CONSTANT p.2 ≤ leftmost_ge COMPARE_CONSTANT q.2) ∧
        (∀ (j : Nat) (q : String × List ℚ), j < r → data[j]? = some q →
          leftmost_ge COMPARE_CONSTANT p.2 < leftmost_ge COMPARE_CONSTANT q.2) ∧
        shifts[r]? = some (p.1, 0) ∧
        (∀ (j : Nat) (q : String × List ℚ), data[j]? = some q → j ≠ r →
          (∃ v ∈ q.2, COMPARE_CONSTANT ≤ v) →
          shifts[j]? = some (q.1,
            (leftmost_ge COMPARE_CONSTANT q.2 : Int) -
              (leftmost_ge COMPARE_CONSTANT p.2 : Int))) := by
  have hne : data ≠ [] := by
    obtain ⟨p, hp, -⟩ := hreach
    intro h
    subst h
    cases hp
  obtain ⟨r, p, hr, hfirst, hmin, hstrict⟩ := first_at_100_spec data hne
  have hbl : ∀ q ∈ data, bisect_left q.2 COMPARE_CONSTANT = leftmost_ge COMPARE_CONSTANT q.2 :=
    fun q hq => bisect_left_eq_leftmost_ge q.2 _ (pairwise_le_getD q.2 (hsorted q hq))
  have hpmem := mem_of_getElem_some hr
  refine ⟨_, get_shifts_eq_map data hnonempty, by rw [List.length_map], r, p, hr, ?_, ?_, ?_, ?_⟩
  · intro j q hj
    have hqmem := mem_of_getElem_some hj
    rw [← hbl p hpmem, ← hbl q hqmem]
    exact hmin q hqmem
  · intro j q hjr hj
    have hqmem := mem_of_getElem_some hj
    rw [← hbl p hpmem, ← hbl q hqmem]
    exact hstrict j q hjr hj
  · rw [List.getElem?_map, hr]
    have hz : shift_value (first_at_100 data) p = 0 := by
      rw [hfirst]
      simp [shift_value]
    simp only [Option.map_some', hz]
  · intro j q hj hjr hqreach
    have hqmem := mem_of_getElem_some hj
    rw [List.getElem?_map, hj]
    have hv : shift_value (first_at_100 data) q =
        (bisect_left q.2 COMPARE_CONSTANT : Int) - (bisect_left p.2 COMPARE_CONSTANT : Int) := by
      rw [hfirst]
      have hqne : q.1 ≠ p.1 := nodup_fst_ne data hnodup j r q p hj hr hjr
      obtain ⟨m, hm, hmmem, hmmax⟩ := list_max_spec q.2 (hnonempty q hqmem)
      obtain ⟨v, hvmem, hvge⟩ := hqreach
      have hmge : ¬ m < COMPARE_CONSTANT := not_lt_of_le (le_trans hvge (hmmax v hvmem))
      simp only [shift_value, if_neg hqne, hm, Option.getD_some, if_neg hmge]
    simp only [Option.map_some', hv, hbl p hpmem, hbl q hqmem]

/-- Witness for C1 at the example of the spec: confirmed series
[10, 50, 120, 200] and [5, 20, 90, 150, 300]. -/
theorem claim_C1_witness :
    ∃ shifts, get_shifts [("A", [10, 50, 120, 200]), ("B", [5, 20, 90, 150, 300])] = some shifts ∧
      shifts.length = ([("A", [10, 50, 120, 200]), ("B", [5, 20, 90, 150, 300])] : List (String × List ℚ)).length ∧
      ∃ (r : Nat) (p : String × List ℚ),
        ([("A", [10, 50, 120, 200]), ("B", [5, 20, 90, 150, 300])] : List (String × List ℚ))[r]? = some p ∧
        (∀ (j : Nat) (q : String × List ℚ),
          ([("A", [10, 50, 120, 200]), ("B", [5, 20, 90, 150, 300])] : List (String × List ℚ))[j]? = some q →
          leftmost_ge COMPARE_CONSTANT p.2 ≤ leftmost_ge COMPARE_CONSTANT q.2) ∧
        (∀ (j : Nat) (q : String × List ℚ), j < r →
          ([("A", [10, 50, 120, 200]), ("B", [5, 20, 90, 150, 300])] : List (String × List ℚ))[j]? = some q →
          leftmost_ge COMPARE_CONSTANT p.2 < leftmost_ge COMPARE_CONSTANT q.2) ∧
        shifts[r]? = some (p.1, 0) ∧
        (∀ (j : Nat) (q : String × List ℚ),
          ([("A", [10, 50, 120, 200]), ("B", [5, 20, 90, 150, 300])] : List (String × List ℚ))[j]? = some q →
          j ≠ r → (∃ v ∈ q.2, COMPARE_CONSTANT ≤ v) →
          shifts[j]? = some (q.1,
            (leftmost_ge COMPARE_CONSTANT q.2 : Int) -
              (leftmost_ge COMPARE_CONSTANT p.2 : Int))) :=
  claim_C1 [("A", [10, 50, 120, 200]), ("B", [5, 20, 90, 150, 300])]
    (by decide) (by decide) (by decide) (by decide)

/-- Claim C3: an area whose maximum confirmed value stays strictly below the
threshold 100 is assigned shift 0, whatever the other areas produce. -/
theorem claim_C3 (data : List (String × List ℚ))
    (hnonempty : ∀ p ∈ data, p.2 ≠ [])
    (j : Nat) (q : String × List ℚ) (hj : data[j]? = some q)
    (hmax : ∀ v ∈ q.2, v < COMPARE_CONSTANT) :
    ∃ shifts, get_shifts data = some shifts ∧ shifts[j]? = some (q.1, 0) := by
  refine ⟨_, get_shifts_eq_map data hnonempty, ?_⟩
  rw [List.getElem?_map, hj]
  have hqmem := mem_of_getElem_some hj
  have h0 : shift_value (first_at_100 data) q = 0 := by
    by_cases h1 : q.1 = (first_at_100 data).1
    · simp [shift_value, h1]
    · obtain ⟨m, hm, hmmem, -⟩ := list_max_spec q.2 (hnonempty q hqmem)
      have hmlt : m < COMPARE_CONSTANT := hmax m hmmem
      simp [shift_value, h1, hm, hmlt]
  simp only [Option.map_some', h0]

/-- Witness for C3: the area "B" with confirmed series [20, 80] (maximum 80,
below the threshold) keeps shift 0 although "A" reaches the threshold. -/
theorem claim_C3_witness :
    ∃ shifts, get_shifts [("A", [10, 150]), ("B", [20, 80])] = some shifts ∧
      shifts[1]? = some ("B", 0) :=
  claim_C3 [("A", [10, 150]), ("B", [20, 80])] (by decide) 1 ("B", [20, 80])
    (by decide) (by decide)

/-- Claim C10: every shift computed by `get_shifts` is non-negative, because
each crossing index is at least the reference minimum; consequently the
negative branch of the offset application in `prepare_data` is never taken
for computed shifts: the applied result always equals one of the two
non-negative branches. -/
theorem claim_C10 (data : List (String × List ℚ)) (shifts : List (String × Int))
    (h : get_shifts data = some shifts) :
    (∀ q ∈ shifts, 0 ≤ q.2) ∧
    (∀ q ∈ shifts, ∀ (x : List Nat) (y : List ℚ),
      apply_shift q.2 x y =
        if 0 < q.2 then
          (py_slice_to (List.range x.length) ((x.length : Int) - q.2), py_slice_from y q.2)
        else (List.range x.length, y)) := by
  have hpos : ∀ q ∈ shifts, 0 ≤ q.2 := by
    intro q hq
    obtain ⟨p, hp, hfp⟩ := mapM_option_mem_source _ data shifts h q hq
    have hne : data ≠ [] := by
      intro hd
      subst hd
      cases hp
    obtain ⟨r, pr, hr, hfirst, hmin, -⟩ := first_at_100_spec data hne
    unfold shift_for at hfp
    by_cases h1 : p.1 = (first_at_100 data).1
    · rw [if_pos h1] at hfp
      have := Option.some.inj hfp
      subst this
      exact le_refl 0
    · rw [if_neg h1] at hfp
      cases hlm : list_max p.2 with
      | none => simp only [hlm] at hfp; cases hfp
      | some m =>
        simp only [hlm] at hfp
        by_cases h2 : m < COMPARE_CONSTANT
        · rw [if_pos h2] at hfp
          have := Option.some.inj hfp
          subst this
          exact le_refl 0
        · rw [if_neg h2] at hfp
          have := Option.some.inj hfp
          subst this
          have hle := hmin p hp
          rw [hfirst]
          simp only [Option.getD_some]
          omega
  refine ⟨hpos, ?_⟩
  intro q hq x y
  have h0 : ¬ q.2 < 0 := not_lt_of_le (hpos q hq)
  by_cases h1 : 0 < q.2
  · simp [apply_shift, h1]
  · simp [apply_shift, h1, h0]

/-- Witness for C10 on concrete data: the computed shifts [0, 1] are
non-negative and the application always takes a non-negative branch. -/
theorem claim_C10_witness :
    (∀ q ∈ ([("A", 0), ("B", 1)] : List (String × Int)), 0 ≤ q.2) ∧
    (∀ q ∈ ([("A", 0), ("B", 1)] : List (String × Int)), ∀ (x : List Nat) (y : List ℚ),
      apply_shift q.2 x y =
        if 0 < q.2 then
          (py_slice_to (List.range x.length) ((x.length : Int) - q.2), py_slice_from y q.2)
        else (List.range x.length, y)) :=
  claim_C10 [("A", [0, 100]), ("B", [0, 0, 100])] [("A", 0), ("B", 1)] (by decide)

end CovidPlot

namespace CovidPlot

/-! ### Python slices under non-negative and negative indices -/

theorem py_slice_from_nonneg {α : Type} (l : List α) (s : Int) (h0 : 0 ≤ s)
    (hle : s ≤ (l.length : Int)) : py_slice_from l s = l.drop s.toNat := by
  simp only [py_slice_from, py_slice_index, if_neg (not_lt_of_le h0)]
  congr 1
  omega

theorem py_slice_to_nonneg {α : Type} (l : List α) (s : Int) (h0 : 0 ≤ s) :
    py_slice_to l s = l.take s.toNat := by
  simp only [py_slice_to, py_slice_index, if_neg (not_lt_of_le h0)]
  rw [List.take_eq_take]
  omega

theorem py_slice_from_neg {α : Type} (l : List α) (s : Int) (h0 : s < 0) :
    py_slice_from l s = l.drop (l.length - (-s).toNat) := by
  simp only [py_slice_from, py_slice_index, if_pos h0]
  congr 1
  omega

theorem py_slice_to_big {α : Type} (l : List α) (s : Int) (h : (l.length : Int) ≤ s) :
    py_slice_to l s = l := by
  have h0 : ¬ s < 0 := by omega
  simp only [py_slice_to, py_slice_index, if_neg h0]
  have hm : min s.toNat l.length = l.length := by omega
  rw [hm, List.take_length]

/-- Counterexample for C2 as stated: applying the negative offset -1 to the
series with x = [0, 1, 2] and y = [1, 2, 3] keeps the whole y list (no
trailing sample is trimmed) and leaves x and y with different lengths 1 and
3, contradicting the claimed trailing trim and length consistency. -/
theorem claim_C2_counterexample :
    apply_shift (-1) ([0, 1, 2] : List Nat) ([1, 2, 3] : List ℚ) = ([2], [1, 2, 3]) ∧
    (apply_shift (-1) ([0, 1, 2] : List Nat) ([1, 2, 3] : List ℚ)).1.length ≠
      (apply_shift (-1) ([0, 1, 2] : List Nat) ([1, 2, 3] : List ℚ)).2.length ∧
    (apply_shift (-1) ([0, 1, 2] : List Nat) ([1, 2, 3] : List ℚ)).2 ≠ ([1, 2] : List ℚ) := by
  refine ⟨?_, ?_, ?_⟩ <;> decide

/-- Claim C2 as amended: a positive offset k (at most the series length)
trims exactly k leading samples from the y list and replaces the x list by
the first (length - k) synthetic indices, so x and y end up with equal
lengths; offset 0 only replaces x by the synthetic indices; for a negative
offset the code keeps the whole y list and only the last |k| synthetic x
indices, which is the behaviour refuted above and is unreachable for
computed shifts. -/
theorem claim_C2_amended {α : Type} (s : Int) (x : List α) (y : List ℚ)
    (hlen : x.length = y.length) :
    (0 < s → s ≤ (x.length : Int) →
      (apply_shift s x y).2 = y.drop s.toNat ∧
      (apply_shift s x y).1.length = x.length - s.toNat ∧
      (apply_shift s x y).1.length = (apply_shift s x y).2.length) ∧
    (s = 0 → apply_shift s x y = (List.range x.length, y)) ∧
    (s < 0 → (apply_shift s x y).2 = y ∧
      (apply_shift s x y).1 = (List.range x.length).drop (x.length - (-s).toNat)) := by
  refine ⟨?_, ?_, ?_⟩
  · intro hs hsle
    have happ : apply_shift s x y =
        (py_slice_to (List.range x.length) ((x.length : Int) - s), py_slice_from y s) := by
      simp only [apply_shift, if_pos hs]
    rw [happ]
    have hfrom : py_slice_from y s = y.drop s.toNat :=
      py_slice_from_nonneg y s (le_of_lt hs) (by omega)
    have hto : py_slice_to (List.range x.length) ((x.length : Int) - s) =
        (List.range x.length).take ((x.length : Int) - s).toNat :=
      py_slice_to_nonneg _ _ (by omega)
    refine ⟨hfrom, ?_, ?_⟩
    · rw [hto, List.length_take, List.length_range]
      omega
    · rw [hto, hfrom, List.length_take, List.length_range, List.length_drop]
      omega
  · intro hs
    subst hs
    simp [apply_shift]
  · intro hs
    have happ : apply_shift s x y =
        (py_slice_from (List.range x.length) s, py_slice_to y ((x.length : Int) - s)) := by
      have : ¬ 0 < s := by omega
      simp only [apply_shift, if_neg this, if_pos hs]
    rw [happ]
    constructor
    · exact py_slice_to_big y ((x.length : Int) - s) (by omega)
    · rw [py_slice_from_neg _ s hs, List.length_range]

/-- Witness for the amended C2: offset 1 on x = [0, 1, 2], y = [10, 20, 30]
drops one leading y sample and keeps the lengths equal. -/
theorem claim_C2_amended_witness :
    (apply_shift 1 ([0, 1, 2] : List Nat) ([10, 20, 30] : List ℚ)).2 = [20, 30] ∧
    (apply_shift 1 ([0, 1, 2] : List Nat) ([10, 20, 30] : List ℚ)).1.length =
      (apply_shift 1 ([0, 1, 2] : List Nat) ([10, 20, 30] : List ℚ)).2.length := by
  obtain ⟨h1, -, -⟩ := claim_C2_amended 1 ([0, 1, 2] : List Nat) ([10, 20, 30] : List ℚ) rfl
  obtain ⟨ha, -, hc⟩ := h1 (by decide) (by decide)
  exact ⟨by rw [ha]; decide, hc⟩

end CovidPlot

namespace CovidPlot

/-! ### Forward filling over daily snapshots -/

theorem forward_fill_length (a : String) :
    ∀ (snaps : List (List (String × Int))) (prev : Int),
      (forward_fill a snaps prev).length = snaps.length := by
  intro snaps
  induction snaps with
  | nil => intro prev; rfl
  | cons snap rest ih =>
    intro prev
    simp only [forward_fill, List.length_cons, ih]

theorem forward_fill_absent (a : String) :
    ∀ (snaps : List (List (String × Int))) (prev : Int) (i : Nat),
      i < snaps.length → dict_get a (snaps.getD i []) = none →
      (forward_fill a snaps prev).getD i 0 =
        (if i = 0 then prev else (forward_fill a snaps prev).getD (i - 1) 0) := by
  intro snaps
  induction snaps with
  | nil => intro prev i hi; simp at hi
  | cons snap rest ih =>
    intro prev i hi habs
    cases i with
    | zero =>
      simp only [List.getD_cons_zero] at habs
      simp [forward_fill, habs]
    | succ j =>
      simp only [List.getD_cons_succ] at habs
      have hj : j < rest.length := by simpa using Nat.lt_of_succ_lt_succ hi
      simp only [forward_fill, List.getD_cons_succ]
      cases j with
      | zero =>
        have h0 := ih ((dict_get a snap).getD prev) 0 hj habs
        simp only [if_pos rfl] at h0
        simpa using h0
      | succ k =>
        have hstep := ih ((dict_get a snap).getD prev) (k + 1) hj habs
        simp only [Nat.succ_ne_zero, if_neg, Nat.add_sub_cancel] at hstep
        simpa using hstep

theorem forward_fill_present (a : String) :
    ∀ (snaps : List (List (String × Int))) (prev : Int) (i : Nat) (w : Int),
      i < snaps.length → dict_get a (snaps.getD i []) = some w →
      (forward_fill a snaps prev).getD i 0 = w := by
  intro snaps
  induction snaps with
  | nil => intro prev i w hi; simp at hi
  | cons snap rest ih =>
    intro prev i w hi hpres
    cases i with
    | zero =>
      simp only [List.getD_cons_zero] at hpres
      simp only [forward_fill, List.getD_cons_zero, hpres, Option.getD_some]
    | succ j =>
      simp only [List.getD_cons_succ] at hpres
      have hj : j < rest.length := by simpa using Nat.lt_of_succ_lt_succ hi
      simp only [forward_fill, List.getD_cons_succ]
      exact ih ((dict_get a snap).getD prev) j w hj hpres

/-- Claim C5 (the snapshot-series builder is modelled from the spec, see
`build_snapshot_data`): every tracked area has exactly one value per
processed date, so the domain is rectangular; on a date where the area is
absent the value is the previous value (zero on the first processed date),
and on a date where it is present it is the recorded value. -/
theorem claim_C5 (areas : List String) (snapshots : List (List (String × Int))) :
    (∀ p ∈ build_snapshot_data areas snapshots,
      p.2.length = (active_snapshots areas snapshots).length) ∧
    (∀ a, a ∈ areas → ∀ i, i < (active_snapshots areas snapshots).length →
      (dict_get a ((active_snapshots areas snapshots).getD i []) = none →
        (forward_fill a (active_snapshots areas snapshots) 0).getD i 0 =
          (if i = 0 then 0
           else (forward_fill a (active_snapshots areas snapshots) 0).getD (i - 1) 0)) ∧
      (∀ w, dict_get a ((active_snapshots areas snapshots).getD i []) = some w →
        (forward_fill a (active_snapshots areas snapshots) 0).getD i 0 = w)) := by
  constructor
  · intro p hp
    obtain ⟨a, _, rfl⟩ := List.mem_map.mp hp
    exact forward_fill_length a _ 0
  · intro a _ i hi
    exact ⟨fun habs => forward_fill_absent a _ 0 i hi habs,
      fun w hpres => forward_fill_present a _ 0 i w hi hpres⟩

/-- Witness for C5 at the example of the spec: area "A" present on day 1
with value 10 and absent on day 2 carries 10 forward; area "B" absent on
both days stays at zero. -/
theorem claim_C5_witness :
    (forward_fill "A" (active_snapshots ["A", "B"] [[("A", 10)], []]) 0).getD 1 0 = 10 ∧
    (forward_fill "B" (active_snapshots ["A", "B"] [[("A", 10)], []]) 0).getD 1 0 = 0 := by
  have h := claim_C5 ["A", "B"] [[("A", 10)], []]
  have hA := (h.2 "A" (by decide) 1 (by decide)).1 (by decide)
  have hB := (h.2 "B" (by decide) 1 (by decide)).1 (by decide)
  constructor
  · rw [hA]; decide
  · rw [hB]; decide

end CovidPlot

namespace CovidPlot

/-! ### The cell loop of `get_data_from_file` in closed form -/

theorem except_bind_ok {ε α β : Type} (a : α) (f : α → Except ε β) :
    (Except.ok a >>= f : Except ε β) = f a := rfl

theorem except_bind_error {ε α β : Type} (e : ε) (f : α → Except ε β) :
    (Except.error e >>= f : Except ε β) = Except.error e := rfl

theorem build_xy_go_relative (pop : List (String × Int)) (args : Args) (area : String)
    (P : Int) (hrel : args.relative = true) (hpop : dict_get area pop = some P) :
    ∀ (cells : List (Nat × Int)) (acc : List Nat × List ℚ),
      cells.foldlM (process_cell pop args area) acc =
        Except.ok
          (acc.1 ++ (cells.filter (fun c => !skip_by_startdate args.startdate c.1)).map Prod.fst,
           acc.2 ++ (cells.filter (fun c => !skip_by_startdate args.startdate c.1)).map
             (fun c => ((c.2 : ℚ) / ((P : ℚ) / 100000)))) := by
  intro cells
  induction cells with
  | nil => intro acc; simp only [List.foldlM_nil, List.filter_nil, List.map_nil, List.append_nil]; rfl
  | cons c rest ih =>
    intro acc
    rw [List.foldlM_cons]
    by_cases hskip : skip_by_startdate args.startdate c.1 = true
    · have hpc : process_cell pop args area acc c = Except.ok acc := by
        simp only [process_cell, if_pos hskip]
      rw [hpc, except_bind_ok, ih acc]
      simp [List.filter_cons, hskip]
    · have hval : cell_value pop args area c.2 = Except.ok ((c.2 : ℚ) / ((P : ℚ) / 100000)) := by
        simp only [cell_value, hrel, if_pos, hpop]
      have hpc : process_cell pop args area acc c =
          Except.ok (acc.1 ++ [c.1], acc.2 ++ [((c.2 : ℚ) / ((P : ℚ) / 100000))]) := by
        simp only [process_cell, if_neg hskip, hval]
      rw [hpc, except_bind_ok, ih]
      simp only [List.filter_cons, Bool.not_eq_true] at *
      rw [if_pos (by simp [hskip])]
      simp [List.append_assoc]

theorem build_xy_go_plain (pop : List (String × Int)) (args : Args) (area : String)
    (hrel : args.relative = false) :
    ∀ (cells : List (Nat × Int)) (acc : List Nat × List ℚ),
      cells.foldlM (process_cell pop args area) acc =
        Except.ok
          (acc.1 ++ (cells.filter (fun c => !skip_by_startdate args.startdate c.1)).map Prod.fst,
           acc.2 ++ (cells.filter (fun c => !skip_by_startdate args.startdate c.1)).map
             (fun c => ((c.2 : Int) : ℚ))) := by
  intro cells
  induction cells with
  | nil => intro acc; simp only [List.foldlM_nil, List.filter_nil, List.map_nil, List.append_nil]; rfl
  | cons c rest ih =>
    intro acc
    rw [List.foldlM_cons]
    by_cases hskip : skip_by_startdate args.startdate c.1 = true
    · have hpc : process_cell pop args area acc c = Except.ok acc := by
        simp only [process_cell, if_pos hskip]
      rw [hpc, except_bind_ok, ih acc]
      simp [List.filter_cons, hskip]
    · have hval : cell_value pop args area c.2 = Except.ok ((c.2 : Int) : ℚ) := by
        simp only [cell_value, hrel]
        rfl
      have hpc : process_cell pop args area acc c =
          Except.ok (acc.1 ++ [c.1], acc.2 ++ [((c.2 : Int) : ℚ)]) := by
        simp only [process_cell, if_neg hskip, hval]
      rw [hpc, except_bind_ok, ih]
      simp only [List.filter_cons, Bool.not_eq_true] at *
      rw [if_pos (by simp [hskip])]
      simp [List.append_assoc]

theorem build_xy_go_missing (pop : List (String × Int)) (args : Args) (area : String)
    (hrel : args.relative = true) (hpop : dict_get area pop = none) :
    ∀ (cells : List (Nat × Int)) (acc : List Nat × List ℚ),
      (∃ c ∈ cells, skip_by_startdate args.startdate c.1 = false) →
      cells.foldlM (process_cell pop args area) acc = Except.error (pop_error_msg area) := by
  intro cells
  induction cells with
  | nil =>
    intro acc h
    obtain ⟨c, hc, -⟩ := h
    cases hc
  | cons c rest ih =>
    intro acc h
    rw [List.foldlM_cons]
    by_cases hskip : skip_by_startdate args.startdate c.1 = true
    · have hpc : process_cell pop args area acc c = Except.ok acc := by
        simp only [process_cell, if_pos hskip]
      rw [hpc, except_bind_ok]
      refine ih acc ?_
      obtain ⟨d, hd, hds⟩ := h
      rcases List.mem_cons.mp hd with hdc | hdrest
      · subst hdc; rw [hskip] at hds; cases hds
      · exact ⟨d, hdrest, hds⟩
    · have hval : cell_value pop args area c.2 = Except.error (pop_error_msg area) := by
        simp only [cell_value, hrel, if_pos, hpop]
      have hpc : process_cell pop args area acc c = Except.error (pop_error_msg area) := by
        simp only [process_cell, if_neg hskip, hval]
      rw [hpc, except_bind_error]

/-- Claim C6: per-capita normalization divides every kept raw count by
population/100000, i.e. the y list produced for an area found in the
population table is exactly the list of values count / (population/100000)
over the kept cells. -/
theorem claim_C6 (pop : List (String × Int)) (args : Args) (area : String)
    (cells : List (Nat × Int)) (P : Int)
    (hrel : args.relative = true) (hpop : dict_get area pop = some P) :
    build_xy pop args area cells =
      Except.ok
        ((cells.filter (fun c => !skip_by_startdate args.startdate c.1)).map Prod.fst,
         (cells.filter (fun c => !skip_by_startdate args.startdate c.1)).map
           (fun c => ((c.2 : ℚ) / ((P : ℚ) / 100000)))) := by
  have h := build_xy_go_relative pop args area P hrel hpop cells ([], [])
  simpa [build_xy] using h

end CovidPlot

namespace CovidPlot

/-- Concrete options for the C6 witness: per-capita normalization on, no
start date. -/
def c6_args : Args :=
  { countries := ["X"], logarithmic := false, confirmed := true, deaths := false,
    recovered := false, all := false, startdate := none, compare := false,
    split_by_state := false, relative := true, list_countries := false }

/-- Witness for C6 at the example of the spec: normalizing the single count
100 with population 200000 yields 50. -/
theorem claim_C6_witness :
    build_xy [("X", 200000)] c6_args "X" [(0, 100)] = Except.ok ([0], [50]) := by
  have h := claim_C6 [("X", 200000)] c6_args "X" [(0, 100)] 200000 rfl rfl
  rw [h]
  norm_num [c6_args, skip_by_startdate]

end CovidPlot

namespace CovidPlot

/-! ### Aggregation of rows into per-area series -/

/-- The y values of one row as rationals (no filtering, no normalization). -/
def row_vals (row : Row) : List ℚ := row.cells.map (fun c => ((c.2 : Int) : ℚ))

/-- Element-wise sum of two equally long value lists. -/
def add_vec (a b : List ℚ) : List ℚ := a.zipWith (· + ·) b

/-- Element-wise sum of the value lists of a batch of rows. -/
def sum_rows : List Row → List ℚ
  | [] => []
  | r :: rs => rs.foldl (fun acc row => add_vec acc (row_vals row)) (row_vals r)

theorem skip_none (d : Nat) : skip_by_startdate none d = false := rfl

theorem build_xy_plain_nostart (pop : List (String × Int)) (args : Args) (area : String)
    (cells : List (Nat × Int)) (hrel : args.relative = false) (hsd : args.startdate = none) :
    build_xy pop args area cells =
      Except.ok (cells.map Prod.fst, cells.map (fun c => ((c.2 : Int) : ℚ))) := by
  have h := build_xy_go_plain pop args area hrel cells ([], [])
  rw [build_xy, h, hsd]
  have hfilter : (cells.filter (fun c => !skip_by_startdate none c.1)) = cells := by
    simp [skip_none]
  rw [hfilter]
  simp

theorem row_label_nosplit (args : Args) (row : Row) (h : args.split_by_state = false) :
    row_label args row = py_strip row.country := by
  simp [row_label, h]

theorem sum_into_eq (old new : List ℚ) (h : new.length = old.length) :
    sum_into old new = Except.ok (add_vec old new) := by
  induction old generalizing new with
  | nil =>
    cases new with
    | nil => rfl
    | cons n ns => simp at h
  | cons o os ih =>
    cases new with
    | nil => simp at h
    | cons n ns =>
      have hlen : ns.length = os.length := by simpa using h
      simp only [sum_into, ih ns hlen]
      rfl

theorem dict_get_cons {V : Type} (k : String) (p : String × V) (rest : List (String × V)) :
    dict_get k (p :: rest) = if p.1 = k then some p.2 else dict_get k rest := rfl

theorem dict_get_append_of_none {V : Type} (k : String) :
    ∀ (l1 l2 : List (String × V)), dict_get k l1 = none →
      dict_get k (l1 ++ l2) = dict_get k l2 := by
  intro l1
  induction l1 with
  | nil => intro l2 _; rfl
  | cons p rest ih =>
    intro l2 h
    rw [dict_get_cons] at h
    by_cases hp : p.1 = k
    · rw [if_pos hp] at h; cases h
    · rw [if_neg hp] at h
      rw [List.cons_append, dict_get_cons, if_neg hp]
      exact ih l2 h

theorem merge_row_new (args : Args) (data : List (String × Series)) (area : String)
    (xy : List Nat × List ℚ) (h : dict_get area data = none) :
    merge_row args data area xy = Except.ok (data ++ [(area, xy)]) := by
  unfold merge_row
  rw [h]

theorem merge_row_over (args : Args) (data : List (String × Series)) (area : String)
    (xy : List Nat × List ℚ) (old : Series) (h : dict_get area data = some old)
    (hsplit : args.split_by_state = true) :
    merge_row args data area xy = Except.ok (dict_set data area xy) := by
  simp only [merge_row, h, hsplit, if_true]

theorem merge_row_sum (args : Args) (data : List (String × Series)) (area : String)
    (xy : List Nat × List ℚ) (old : Series) (newY : List ℚ)
    (h : dict_get area data = some old) (hsplit : args.split_by_state = false)
    (hsum : sum_into old.2 xy.2 = Except.ok newY) :
    merge_row args data area xy = Except.ok (dict_set data area (old.1, newY)) := by
  simp only [merge_row, h, hsplit, Bool.false_eq_true, if_false]
  rw [hsum]

theorem merge_row_sum_err (args : Args) (data : List (String × Series)) (area : String)
    (xy : List Nat × List ℚ) (old : Series) (e : String)
    (h : dict_get area data = some old) (hsplit : args.split_by_state = false)
    (hsum : sum_into old.2 xy.2 = Except.error e) :
    merge_row args data area xy = Except.error e := by
  simp only [merge_row, h, hsplit, Bool.false_eq_true, if_false]
  rw [hsum]

theorem process_row_in (pop : List (String × Int)) (args : Args)
    (data : List (String × Series)) (row : Row)
    (hin : py_strip row.country ∈ args.countries) (xy : List Nat × List ℚ)
    (hbx : build_xy pop args (py_strip row.country) row.cells = Except.ok xy) :
    process_row pop args data row = merge_row args data (row_label args row) xy := by
  simp only [process_row, if_pos hin, hbx]

theorem process_row_skip (pop : List (String × Int)) (args : Args)
    (data : List (String × Series)) (row : Row)
    (hnin : py_strip row.country ∉ args.countries) :
    process_row pop args data row = Except.ok data := by
  simp only [process_row, if_neg hnin]

theorem process_row_err (pop : List (String × Int)) (args : Args)
    (data : List (String × Series)) (row : Row)
    (hin : py_strip row.country ∈ args.countries) (e : String)
    (hbx : build_xy pop args (py_strip row.country) row.cells = Except.error e) :
    process_row pop args data row = Except.error e := by
  simp only [process_row, if_pos hin, hbx]

theorem gdff_sum_go (pop : List (String × Int)) (args : Args) (C : String)
    (hsplit : args.split_by_state = false) (hrel : args.relative = false)
    (hsd : args.startdate = none) (hmem : C ∈ args.countries) :
    ∀ (rows : List Row) (x0 : List Nat) (acc : List ℚ),
      (∀ row ∈ rows, py_strip row.country = C) →
      (∀ row ∈ rows, (row_vals row).length = acc.length) →
      rows.foldlM (process_row pop args) [(C, (x0, acc))] =
        Except.ok [(C, (x0, rows.foldl (fun a row => add_vec a (row_vals row)) acc))] := by
  intro rows
  induction rows with
  | nil => intro x0 acc _ _; rfl
  | cons row rest ih =>
    intro x0 acc hC hlen
    rw [List.foldlM_cons]
    have hCrow : py_strip row.country = C := hC row (List.mem_cons_self row rest)
    have hpr : process_row pop args [(C, (x0, acc))] row =
        Except.ok [(C, (x0, add_vec acc (row_vals row)))] := by
      rw [process_row_in pop args _ row (hCrow ▸ hmem) _
        (build_xy_plain_nostart pop args _ row.cells hrel hsd)]
      rw [row_label_nosplit args row hsplit, hCrow]
      rw [merge_row_sum args _ C _ (x0, acc) (add_vec acc (row_vals row))
        (by rw [dict_get_cons, if_pos rfl]) hsplit
        (sum_into_eq acc (row_vals row) (hlen row (List.mem_cons_self row rest)))]
      simp [dict_set]
    rw [hpr, except_bind_ok]
    have hlen2 : ∀ r ∈ rest, (row_vals r).length = (add_vec acc (row_vals row)).length := by
      intro r hr
      rw [add_vec, List.length_zipWith, hlen row (List.mem_cons_self row rest),
        min_self]
      exact hlen r (List.mem_cons_of_mem row hr)
    rw [ih x0 (add_vec acc (row_vals row)) (fun r hr => hC r (List.mem_cons_of_mem row hr)) hlen2]
    rfl

theorem gdff_split_go (pop : List (String × Int)) (args : Args)
    (hsplit : args.split_by_state = true) (hrel : args.relative = false)
    (hsd : args.startdate = none) :
    ∀ (rows : List Row) (data : List (String × Series)),
      (∀ row ∈ rows, py_strip row.country ∈ args.countries) →
      (∀ row ∈ rows, dict_get (row_label args row) data = none) →
      (rows.map (row_label args)).Nodup →
      rows.foldlM (process_row pop args) data =
        Except.ok (data ++ rows.map (fun row =>
          (row_label args row, (row.cells.map Prod.fst, row_vals row)))) := by
  intro rows
  induction rows with
  | nil => intro data _ _ _; simp [List.foldlM_nil]; rfl
  | cons row rest ih =>
    intro data hin hnot hnd
    rw [List.foldlM_cons]
    have hpr : process_row pop args data row =
        Except.ok (data ++ [(row_label args row, (row.cells.map Prod.fst, row_vals row))]) := by
      rw [process_row_in pop args data row (hin row (List.mem_cons_self row rest)) _
        (build_xy_plain_nostart pop args _ row.cells hrel hsd)]
      exact merge_row_new args data _ _ (hnot row (List.mem_cons_self row rest))
    rw [hpr, except_bind_ok]
    have hndrest : (rest.map (row_label args)).Nodup := by
      rw [List.map_cons, List.nodup_cons] at hnd
      exact hnd.2
    have hhead : row_label args row ∉ rest.map (row_label args) := by
      rw [List.map_cons, List.nodup_cons] at hnd
      exact hnd.1
    have hnot2 : ∀ r ∈ rest, dict_get (row_label args r)
        (data ++ [(row_label args row, (row.cells.map Prod.fst, row_vals row))]) = none := by
      intro r hr
      rw [dict_get_append_of_none _ data _ (hnot r (List.mem_cons_of_mem row hr))]
      have hne : row_label args row ≠ row_label args r := by
        intro heq
        exact hhead (heq ▸ List.mem_map_of_mem (row_label args) hr)
      rw [dict_get_cons, if_neg hne]
      rfl
    rw [ih _ (fun r hr => hin r (List.mem_cons_of_mem row hr)) hnot2 hndrest]
    simp [List.append_assoc]

end CovidPlot

namespace CovidPlot

/-- Claim C4: without sub-area splitting, all rows of one area are summed
element-wise into a single series over the shared date domain; with
splitting, every (area, sub-area) row becomes its own series keyed by
"area - sub_area" and no summation happens. -/
theorem claim_C4 :
    (∀ (pop : List (String × Int)) (args : Args) (C : String) (r : Row) (rs : List Row),
      args.split_by_state = false → args.relative = false → args.startdate = none →
      C ∈ args.countries →
      (∀ row ∈ r :: rs, py_strip row.country = C) →
      (∀ row ∈ r :: rs, row.cells.map Prod.fst = r.cells.map Prod.fst) →
      get_data_from_file pop args (r :: rs) =
        Except.ok [(C, (r.cells.map Prod.fst, sum_rows (r :: rs)))]) ∧
    (∀ (pop : List (String × Int)) (args : Args) (rows : List Row),
      args.split_by_state = true → args.relative = false → args.startdate = none →
      (∀ row ∈ rows, py_strip row.country ∈ args.countries) →
      (∀ row ∈ rows, py_strip row.state ≠ "") →
      (rows.map (row_label args)).Nodup →
      get_data_from_file pop args rows =
        Except.ok (rows.map (fun row =>
          (py_strip row.country ++ " - " ++ py_strip row.state,
            (row.cells.map Prod.fst, row_vals row))))) := by
  constructor
  · intro pop args C r rs hsplit hrel hsd hmem hC hdates
    have hCr : py_strip r.country = C := hC r (List.mem_cons_self r rs)
    rw [get_data_from_file, List.foldlM_cons]
    have hpr : process_row pop args [] r =
        Except.ok [(C, (r.cells.map Prod.fst, row_vals r))] := by
      rw [process_row_in pop args [] r (hCr ▸ hmem) _
        (build_xy_plain_nostart pop args _ r.cells hrel hsd)]
      rw [merge_row_new args [] _ _ rfl, row_label_nosplit args r hsplit, hCr]
      rfl
    rw [hpr, except_bind_ok]
    have hlen : ∀ row ∈ rs, (row_vals row).length = (row_vals r).length := by
      intro row hrow
      have := hdates row (List.mem_cons_of_mem r hrow)
      have hcl : row.cells.length = r.cells.length := by
        have h1 := congrArg List.length this
        simpa using h1
      simp [row_vals, hcl]
    rw [gdff_sum_go pop args C hsplit hrel hsd hmem rs (r.cells.map Prod.fst) (row_vals r)
      (fun row hrow => hC row (List.mem_cons_of_mem r hrow)) hlen]
    rfl
  · intro pop args rows hsplit hrel hsd hin hstate hnd
    rw [get_data_from_file,
      gdff_split_go pop args hsplit hrel hsd rows [] hin (fun row _ => rfl) hnd]
    rw [List.nil_append]
    refine congrArg Except.ok (List.map_congr_left ?_)
    intro row hrow
    have hlab : row_label args row = py_strip row.country ++ " - " ++ py_strip row.state := by
      simp [row_label, hsplit, hstate row hrow]
    rw [hlab]

/-- Concrete options for the C4 witness without sub-area splitting. -/
def c4_args_nosplit : Args :=
  { countries := ["Area"], logarithmic := false, confirmed := true, deaths := false,
    recovered := false, all := false, startdate := none, compare := false,
    split_by_state := false, relative := false, list_countries := false }

/-- Concrete options for the C4 witness with sub-area splitting. -/
def c4_args_split : Args :=
  { c4_args_nosplit with split_by_state := true }

/-- Witness for C4 at the example of the spec: rows [1,2,3] and [4,5,6] of
one area sum to [5,7,9] without splitting, and stay separate with labels
"Area - Sub1" and "Area - Sub2" with splitting. -/
theorem claim_C4_witness :
    get_data_from_file [] c4_args_nosplit
        [⟨"Sub1", "Area", [(0, 1), (1, 2), (2, 3)]⟩, ⟨"Sub2", "Area", [(0, 4), (1, 5), (2, 6)]⟩] =
      Except.ok [("Area", ([0, 1, 2], [5, 7, 9]))] ∧
    get_data_from_file [] c4_args_split
        [⟨"Sub1", "Area", [(0, 1), (1, 2), (2, 3)]⟩, ⟨"Sub2", "Area", [(0, 4), (1, 5), (2, 6)]⟩] =
      Except.ok [("Area - Sub1", ([0, 1, 2], [1, 2, 3])), ("Area - Sub2", ([0, 1, 2], [4, 5, 6]))] := by
  constructor
  · have h := claim_C4.1 [] c4_args_nosplit "Area" ⟨"Sub1", "Area", [(0, 1), (1, 2), (2, 3)]⟩
      [⟨"Sub2", "Area", [(0, 4), (1, 5), (2, 6)]⟩] rfl rfl rfl (by decide) (by decide) (by decide)
    rw [h]
    norm_num [sum_rows, row_vals, add_vec]
  · have h := claim_C4.2 [] c4_args_split
      [⟨"Sub1", "Area", [(0, 1), (1, 2), (2, 3)]⟩, ⟨"Sub2", "Area", [(0, 4), (1, 5), (2, 6)]⟩]
      rfl rfl rfl (by decide) (by decide) (by decide)
    rw [h]
    norm_num [row_vals]
    decide

end CovidPlot

namespace CovidPlot

/-! ### The population lookup failure in `get_data_from_file` -/

theorem dict_get_some_mem {V : Type} (k : String) :
    ∀ (l : List (String × V)) (v : V), dict_get k l = some v → (k, v) ∈ l := by
  intro l
  induction l with
  | nil => intro v h; cases h
  | cons p rest ih =>
    intro v h
    rw [dict_get_cons] at h
    by_cases hp : p.1 = k
    · rw [if_pos hp] at h
      have hv : p.2 = v := Option.some.inj h
      have hkv : (k, v) = p := by rw [← hp, ← hv]
      rw [hkv]
      exact List.mem_cons_self p rest
    · rw [if_neg hp] at h
      exact List.mem_cons_of_mem p (ih v h)

theorem dict_set_mem {V : Type} (k : String) (v : V) :
    ∀ (l : List (String × V)) (e : String × V), e ∈ dict_set l k v → e ∈ l ∨ e = (k, v) := by
  intro l
  induction l with
  | nil =>
    intro e he
    simp only [dict_set] at he
    exact Or.inr (by simpa using he)
  | cons p rest ih =>
    intro e he
    simp only [dict_set] at he
    by_cases hp : p.1 = k
    · rw [if_pos hp] at he
      rcases List.mem_cons.mp he with h | h
      · exact Or.inr h
      · exact Or.inl (List.mem_cons_of_mem p h)
    · rw [if_neg hp] at he
      rcases List.mem_cons.mp he with h | h
      · exact Or.inl (h ▸ List.mem_cons_self p rest)
      · rcases ih e h with h2 | h2
        · exact Or.inl (List.mem_cons_of_mem p h2)
        · exact Or.inr h2

theorem build_xy_all_skipped (pop : List (String × Int)) (args : Args) (area : String) :
    ∀ (cells : List (Nat × Int)) (acc : List Nat × List ℚ),
      (∀ c ∈ cells, skip_by_startdate args.startdate c.1 = true) →
      cells.foldlM (process_cell pop args area) acc = Except.ok acc := by
  intro cells
  induction cells with
  | nil => intro acc _; rfl
  | cons c rest ih =>
    intro acc h
    rw [List.foldlM_cons]
    have hpc : process_cell pop args area acc c = Except.ok acc := by
      simp only [process_cell, if_pos (h c (List.mem_cons_self c rest))]
    rw [hpc, except_bind_ok]
    exact ih acc (fun d hd => h d (List.mem_cons_of_mem c hd))

theorem filter_skip_length (args : Args) (row : Row) (D : List Nat)
    (h : row.cells.map Prod.fst = D) :
    (row.cells.filter (fun c => !skip_by_startdate args.startdate c.1)).length =
      (D.filter (fun d => !skip_by_startdate args.startdate d)).length := by
  subst h
  rw [List.filter_map, List.length_map]
  rfl

theorem sum_into_nil (old : List ℚ) : sum_into old [] = Except.ok old := by
  cases old <;> rfl

theorem c7_go (pop : List (String × Int)) (args : Args) (D : List Nat)
    (hrel : args.relative = true) :
    ∀ (rows : List Row) (data : List (String × Series)),
      (∀ row ∈ rows, row.cells.map Prod.fst = D) →
      (∀ e ∈ data, e.2.2.length =
        (D.filter (fun d => !skip_by_startdate args.startdate d)).length) →
      (∃ row ∈ rows, py_strip row.country ∈ args.countries ∧
        dict_get (py_strip row.country) pop = none ∧
        ∃ c ∈ row.cells, skip_by_startdate args.startdate c.1 = false) →
      ∃ area, area ∈ args.countries ∧ dict_get area pop = none ∧
        rows.foldlM (process_row pop args) data = Except.error (pop_error_msg area) := by
  intro rows
  induction rows with
  | nil =>
    intro data _ _ hbad
    obtain ⟨row, hrow, -⟩ := hbad
    cases hrow
  | cons row rest ih =>
    intro data hdates hinv hbad
    have hdrow := hdates row (List.mem_cons_self row rest)
    have hdrest : ∀ r ∈ rest, r.cells.map Prod.fst = D :=
      fun r hr => hdates r (List.mem_cons_of_mem row hr)
    by_cases hinc : py_strip row.country ∈ args.countries
    · by_cases hpop : dict_get (py_strip row.country) pop = none
      · by_cases hsurv : ∃ c ∈ row.cells, skip_by_startdate args.startdate c.1 = false
        · refine ⟨py_strip row.country, hinc, hpop, ?_⟩
          have hbx : build_xy pop args (py_strip row.country) row.cells =
              Except.error (pop_error_msg (py_strip row.country)) :=
            build_xy_go_missing pop args _ hrel hpop row.cells ([], []) hsurv
          rw [List.foldlM_cons, process_row_err pop args data row hinc _ hbx,
            except_bind_error]
        · have hall : ∀ c ∈ row.cells, skip_by_startdate args.startdate c.1 = true := by
            intro c hc
            rcases Bool.eq_false_or_eq_true (skip_by_startdate args.startdate c.1) with h | h
            · exact h
            · exact absurd ⟨c, hc, h⟩ hsurv
          have hsurv0 : (D.filter (fun d => !skip_by_startdate args.startdate d)).length = 0 := by
            rw [← filter_skip_length args row D hdrow]
            have : row.cells.filter (fun c => !skip_by_startdate args.startdate c.1) = [] := by
              refine List.filter_eq_nil_iff.mpr ?_
              intro c hc
              simp [hall c hc]
            rw [this]
            rfl
          have hbx : build_xy pop args (py_strip row.country) row.cells =
              Except.ok ([], []) :=
            build_xy_all_skipped pop args _ row.cells ([], []) hall
          rw [List.foldlM_cons, process_row_in pop args data row hinc ([], []) hbx]
          have hbadrest : ∃ r ∈ rest, py_strip r.country ∈ args.countries ∧
              dict_get (py_strip r.country) pop = none ∧
              ∃ c ∈ r.cells, skip_by_startdate args.startdate c.1 = false := by
            obtain ⟨r, hr, h1, h2, h3⟩ := hbad
            rcases List.mem_cons.mp hr with heq | hmem
            · subst heq; exact absurd h3 hsurv
            · exact ⟨r, hmem, h1, h2, h3⟩
          cases hget : dict_get (row_label args row) data with
          | none =>
            rw [merge_row_new args data _ _ hget, except_bind_ok]
            refine ih (data ++ [(row_label args row, ([], []))]) hdrest ?_ hbadrest
            intro e he
            rcases List.mem_append.mp he with h | h
            · exact hinv e h
            · have he2 : e = (row_label args row, (([] : List Nat), ([] : List ℚ))) := by simpa using h
              rw [he2, hsurv0]
              rfl
          | some old =>
            by_cases hsplit : args.split_by_state = true
            · rw [merge_row_over args data _ _ old hget hsplit, except_bind_ok]
              refine ih (dict_set data (row_label args row) ([], [])) hdrest ?_ hbadrest
              intro e he
              rcases dict_set_mem _ _ data e he with h | h
              · exact hinv e h
              · rw [h, hsurv0]
                rfl
            · have hsplitf : args.split_by_state = false := by
                rcases Bool.eq_false_or_eq_true args.split_by_state with h | h
                · exact absurd h hsplit
                · exact h
              rw [merge_row_sum args data (row_label args row) ([], []) old old.2 hget hsplitf
                  (sum_into_nil old.2),
                except_bind_ok]
              refine ih (dict_set data (row_label args row) (old.1, old.2)) hdrest ?_ hbadrest
              intro e he
              rcases dict_set_mem _ _ data e he with h | h
              · exact hinv e h
              · rw [h]
                exact hinv (row_label args row, old) (dict_get_some_mem _ data old hget)
      · obtain ⟨P, hP⟩ := Option.ne_none_iff_exists'.mp hpop
        have hbx : build_xy pop args (py_strip row.country) row.cells =
            Except.ok
              ((row.cells.filter (fun c => !skip_by_startdate args.startdate c.1)).map Prod.fst,
               (row.cells.filter (fun c => !skip_by_startdate args.startdate c.1)).map
                 (fun c => ((c.2 : ℚ) / ((P : ℚ) / 100000)))) := by
          have h := build_xy_go_relative pop args _ P hrel hP row.cells ([], [])
          simpa [build_xy] using h
        have hylen : ((row.cells.filter (fun c => !skip_by_startdate args.startdate c.1)).map
            (fun c => ((c.2 : ℚ) / ((P : ℚ) / 100000)))).length =
            (D.filter (fun d => !skip_by_startdate args.startdate d)).length := by
          rw [List.length_map]
          exact filter_skip_length args row D hdrow
        rw [List.foldlM_cons, process_row_in pop args data row hinc _ hbx]
        have hbadrest : ∃ r ∈ rest, py_strip r.country ∈ args.countries ∧
            dict_get (py_strip r.country) pop = none ∧
            ∃ c ∈ r.cells, skip_by_startdate args.startdate c.1 = false := by
          obtain ⟨r, hr, h1, h2, h3⟩ := hbad
          rcases List.mem_cons.mp hr with heq | hmem
          · subst heq
            rw [h2] at hP
            cases hP
          · exact ⟨r, hmem, h1, h2, h3⟩
        cases hget : dict_get (row_label args row) data with
        | none =>
          rw [merge_row_new args data _ _ hget, except_bind_ok]
          refine ih _ hdrest ?_ hbadrest
          intro e he
          rcases List.mem_append.mp he with h | h
          · exact hinv e h
          · have he2 := List.mem_singleton.mp h
            rw [he2]
            exact hylen
        | some old =>
          by_cases hsplit : args.split_by_state = true
          · rw [merge_row_over args data _ _ old hget hsplit, except_bind_ok]
            refine ih _ hdrest ?_ hbadrest
            intro e he
            rcases dict_set_mem _ _ data e he with h | h
            · exact hinv e h
            · rw [h]
              exact hylen
          · have hsplitf : args.split_by_state = false := by
              rcases Bool.eq_false_or_eq_true args.split_by_state with h | h
              · exact absurd h hsplit
              · exact h
            have holdlen : old.2.length =
                (D.filter (fun d => !skip_by_startdate args.startdate d)).length :=
              hinv (row_label args row, old) (dict_get_some_mem _ data old hget)
            have hsum := sum_into_eq old.2 _ (hylen.trans holdlen.symm)
            rw [merge_row_sum args data _ _ old _ hget hsplitf hsum, except_bind_ok]
            refine ih _ hdrest ?_ hbadrest
            intro e he
            rcases dict_set_mem _ _ data e he with h | h
            · exact hinv e h
            · rw [h]
              simp only [add_vec, List.length_zipWith, holdlen, hylen]
              omega
    · rw [List.foldlM_cons, process_row_skip pop args data row hinc, except_bind_ok]
      refine ih data hdrest hinv ?_
      obtain ⟨r, hr, h1, h2, h3⟩ := hbad
      rcases List.mem_cons.mp hr with heq | hmem
      · subst heq; exact absurd h1 hinc
      · exact ⟨r, hmem, h1, h2, h3⟩

/-- Claim C7: when per-capita normalization is requested and some requested
area (with at least one kept cell) is missing from the population table, the
whole file read aborts with the population error naming a missing requested
area, so no partial data is produced. -/
theorem claim_C7 (pop : List (String × Int)) (args : Args) (rows : List Row) (D : List Nat)
    (hrel : args.relative = true)
    (hdates : ∀ row ∈ rows, row.cells.map Prod.fst = D)
    (hbad : ∃ row ∈ rows, py_strip row.country ∈ args.countries ∧
      dict_get (py_strip row.country) pop = none ∧
      ∃ c ∈ row.cells, skip_by_startdate args.startdate c.1 = false) :
    ∃ area, area ∈ args.countries ∧ dict_get area pop = none ∧
      get_data_from_file pop args rows = Except.error (pop_error_msg area) :=
  c7_go pop args D hrel rows [] hdates (fun e he => absurd he (List.not_mem_nil e)) hbad

end CovidPlot

namespace CovidPlot

/-- Concrete options for the C7 witness: normalization on, area "X"
requested, empty population table. -/
def c7_args : Args :=
  { countries := ["X"], logarithmic := false, confirmed := true, deaths := false,
    recovered := false, all := false, startdate := none, compare := false,
    split_by_state := false, relative := true, list_countries := false }

/-- Witness for C7: reading one row for the requested area "X" with an empty
population table aborts with the population error naming "X". -/
theorem claim_C7_witness :
    ∃ area, area ∈ c7_args.countries ∧ dict_get area ([] : List (String × Int)) = none ∧
      get_data_from_file [] c7_args [⟨"", "X", [(0, 100)]⟩] =
        Except.error (pop_error_msg area) :=
  claim_C7 [] c7_args [⟨"", "X", [(0, 100)]⟩] [0] rfl (by decide)
    ⟨⟨"", "X", [(0, 100)]⟩, by decide, by decide, rfl, (0, 100), by decide, rfl⟩

/-! ### Configuration errors and the no-data exit of `main` -/

/-- Counterexample input for C8: `-m -d` style options, compare without
confirmed. -/
def c8_raw : Args :=
  { countries := ["Switzerland"], logarithmic := false, confirmed := false, deaths := true,
    recovered := false, all := false, startdate := none, compare := true,
    split_by_state := false, relative := false, list_countries := false }

/-- Counterexample for C8 as stated: on a compare-without-confirmed run the
very first event of the trace is the read of the population table, performed
at import time before the configuration error is surfaced, so the error is
not surfaced before any file I/O. -/
theorem claim_C8_counterexample :
    covid_main (fun _ => []) [] c8_raw =
      [Event.readPopulation,
        Event.printErr "Comparison is only supported based on confirmed cases.",
        Event.exitCode 2] ∧
    no_file_io_before_error (covid_main (fun _ => []) [] c8_raw) = false :=
  ⟨rfl, rfl⟩

/-- Claim C8 as amended: an invalid option combination (compare without the
confirmed metric, or per-capita together with sub-area splitting) makes the
run exit with status 2 and a message naming the conflicting options, before
any case-data file is read (though the population table has already been
read at import time). -/
theorem claim_C8_amended (env : String → List Row) (pop : List (String × Int)) (raw : Args)
    (h : ((normalize_metrics raw).compare = true ∧ (normalize_metrics raw).confirmed = false) ∨
      ((normalize_metrics raw).relative = true ∧ (normalize_metrics raw).split_by_state = true)) :
    ∃ msg, covid_main env pop raw =
        [Event.readPopulation, Event.printErr msg, Event.exitCode 2] ∧
      (msg = "Comparison is only supported based on confirmed cases." ∨
        msg = "--split-by-state with --relative is not supported.") ∧
      (∀ s, Event.readFile s ∉ covid_main env pop raw) ∧
      Event.readDailyReports ∉ covid_main env pop raw ∧
      Event.render ∉ covid_main env pop raw := by
  have herr : ∃ msg, parse_arguments raw = Except.error msg ∧
      (msg = "Comparison is only supported based on confirmed cases." ∨
        msg = "--split-by-state with --relative is not supported.") := by
    simp only [parse_arguments]
    by_cases h1 : (normalize_metrics raw).compare = true ∧ (normalize_metrics raw).confirmed = false
    · exact ⟨_, by rw [if_pos h1], Or.inl rfl⟩
    · rcases h with h | h
      · exact absurd h h1
      · exact ⟨_, by rw [if_neg h1, if_pos h], Or.inr rfl⟩
  obtain ⟨msg, hmsg, hdisj⟩ := herr
  have htr : covid_main env pop raw =
      [Event.readPopulation, Event.printErr msg, Event.exitCode 2] := by
    unfold covid_main
    rw [hmsg]
  refine ⟨msg, htr, hdisj, ?_, ?_, ?_⟩
  · intro s
    rw [htr]
    simp
  · rw [htr]
    simp
  · rw [htr]
    simp

/-- Witness for the amended C8 at the concrete input of the counterexample. -/
theorem claim_C8_amended_witness :
    ∃ msg, covid_main (fun _ => []) [] c8_raw =
        [Event.readPopulation, Event.printErr msg, Event.exitCode 2] ∧
      (msg = "Comparison is only supported based on confirmed cases." ∨
        msg = "--split-by-state with --relative is not supported.") ∧
      (∀ s, Event.readFile s ∉ covid_main (fun _ => []) [] c8_raw) ∧
      Event.readDailyReports ∉ covid_main (fun _ => []) [] c8_raw ∧
      Event.render ∉ covid_main (fun _ => []) [] c8_raw :=
  claim_C8_amended (fun _ => []) [] c8_raw (Or.inl (by decide))

theorem foldlM_skip_all (pop : List (String × Int)) (args : Args) :
    ∀ (rows : List Row) (data : List (String × Series)),
      (∀ row ∈ rows, py_strip row.country ∉ args.countries) →
      rows.foldlM (process_row pop args) data = Except.ok data := by
  intro rows
  induction rows with
  | nil => intro data _; rfl
  | cons row rest ih =>
    intro data h
    rw [List.foldlM_cons, process_row_skip pop args data row (h row (List.mem_cons_self row rest)),
      except_bind_ok]
    exact ih data (fun r hr => h r (List.mem_cons_of_mem row hr))

theorem gdff_no_match (pop : List (String × Int)) (args : Args) (rows : List Row)
    (h : ∀ row ∈ rows, py_strip row.country ∉ args.countries) :
    get_data_from_file pop args rows = Except.ok [] :=
  foldlM_skip_all pop args rows [] h

theorem get_data_traced_empty (env : String → List Row) (pop : List (String × Int))
    (args : Args) (hg : ∀ key, get_data_from_file pop args (env key) = Except.ok []) :
    get_data_traced env pop args =
      ((if args.confirmed then [Event.readFile "confirmed"] else []) ++
       (if args.deaths then [Event.readFile "deaths"] else []) ++
       (if args.recovered then [Event.readFile "recovered"] else []), Except.ok []) := by
  have hstep : ∀ (key : String) (evs : List Event),
      metric_step env pop args key (evs, Except.ok ([] : DataMap)) =
        (evs ++ [Event.readFile key], Except.ok ([] : DataMap)) := by
    intro key evs
    simp only [metric_step, hg key]
    rfl
  unfold get_data_traced
  by_cases hc : args.confirmed <;> by_cases hd : args.deaths <;> by_cases hr : args.recovered <;>
    simp [hc, hd, hr, hstep]

/-- Claim C9: when the options are valid, the country list is not requested
and no requested area occurs in any input file, the run prints the no-data
message naming the requested countries to stderr and exits with status 1,
after reading the selected files, without rendering and without crashing. -/
theorem claim_C9 (env : String → List Row) (pop : List (String × Int)) (raw args : Args)
    (hargs : parse_arguments raw = Except.ok args)
    (hlist : args.list_countries = false)
    (hnomatch : ∀ key, ∀ row ∈ env key, py_strip row.country ∉ args.countries) :
    covid_main env pop raw =
      [Event.readPopulation] ++
        ((if args.confirmed then [Event.readFile "confirmed"] else []) ++
         (if args.deaths then [Event.readFile "deaths"] else []) ++
         (if args.recovered then [Event.readFile "recovered"] else [])) ++
        [Event.printErr
            ("No data found for countries: " ++ String.intercalate ", " args.countries),
          Event.exitCode 1] ∧
      Event.render ∉ covid_main env pop raw ∧
      (∀ m, Event.crash m ∉ covid_main env pop raw) := by
  have hg : ∀ key, get_data_from_file pop args (env key) = Except.ok [] :=
    fun key => gdff_no_match pop args (env key) (hnomatch key)
  have htr := get_data_traced_empty env pop args hg
  have hmain : covid_main env pop raw =
      [Event.readPopulation] ++
        ((if args.confirmed then [Event.readFile "confirmed"] else []) ++
         (if args.deaths then [Event.readFile "deaths"] else []) ++
         (if args.recovered then [Event.readFile "recovered"] else [])) ++
        [Event.printErr
            ("No data found for countries: " ++ String.intercalate ", " args.countries),
          Event.exitCode 1] := by
    unfold covid_main
    rw [hargs]
    simp [hlist, htr]
  refine ⟨hmain, ?_, ?_⟩
  · rw [hmain]
    cases hc : args.confirmed <;> cases hd : args.deaths <;> cases hr : args.recovered <;> simp
  · intro m
    rw [hmain]
    cases hc : args.confirmed <;> cases hd : args.deaths <;> cases hr : args.recovered <;> simp

/-- The input rows for the C9 witness: one row for a country that is not
requested. -/
def c9_env : String → List Row := fun _ => [⟨"", "France", [(0, 1)]⟩]

/-- Concrete options for the C9 witness. -/
def c9_raw : Args :=
  { countries := ["Switzerland"], logarithmic := false, confirmed := true, deaths := false,
    recovered := false, all := false, startdate := none, compare := false,
    split_by_state := false, relative := false, list_countries := false }

/-- Witness for C9: requesting Switzerland over a file mentioning only
France prints the no-data message and exits 1 without rendering. -/
theorem claim_C9_witness :
    covid_main c9_env [] c9_raw =
      [Event.readPopulation] ++
        ((if c9_raw.confirmed then [Event.readFile "confirmed"] else []) ++
         (if c9_raw.deaths then [Event.readFile "deaths"] else []) ++
         (if c9_raw.recovered then [Event.readFile "recovered"] else [])) ++
        [Event.printErr
            ("No data found for countries: " ++ String.intercalate ", " c9_raw.countries),
          Event.exitCode 1] ∧
      Event.render ∉ covid_main c9_env [] c9_raw ∧
      (∀ m, Event.crash m ∉ covid_main c9_env [] c9_raw) :=
  claim_C9 c9_env [] c9_raw c9_raw rfl rfl
    (by
      intro key row hrow
      have hr : row = ⟨"", "France", [(0, 1)]⟩ := by simpa [c9_env] using hrow
      subst hr
      decide)

end CovidPlot
